import Mathlib

/-!
Axis: a time-gated single-step robot axis (Axis.h / Axis.cpp).

Shallow embedding of the `Axis` class.

* `int` fields are `Int` values; every `int` arithmetic result is reduced with
  `wrapInt w`, where `w` is the width of `int` on the board (16 on AVR boards,
  32 on ARM boards).
* `unsigned long` fields (`_delay`, `_timer`) and the value of `millis()` are
  `Nat` values below `2 ^ 32`; unsigned subtraction is `usub`.
* A member function becomes a function from the state (and the clock value
  read by `millis()`) to the returned value and the new state.
* A member declared `bool` whose body has no `return` statement yields
  `Outcome.noReturn`: the assignments of the body are recorded, and no state
  after the call is defined.
-/

namespace Axis

/-! ## Machine integers -/

/-- Smallest value of a `w`-bit two's complement `int`. -/
def INT_MIN (w : Nat) : Int := -((2 : Int) ^ w / 2)

/-- Largest value of a `w`-bit two's complement `int`. -/
def INT_MAX (w : Nat) : Int := (2 : Int) ^ w / 2 - 1

/-- Value range of the `int` type. -/
def InRange (w : Nat) (x : Int) : Prop := INT_MIN w ≤ x ∧ x ≤ INT_MAX w

instance (w : Nat) (x : Int) : Decidable (InRange w x) := by
  unfold InRange
  exact inferInstance

/-- Result of an `int` operation whose exact value is `x`: reduction modulo
`2 ^ w` into the range `INT_MIN w .. INT_MAX w`. -/
def wrapInt (w : Nat) (x : Int) : Int := (x - INT_MIN w) % (2 : Int) ^ w + INT_MIN w

/-- Number of values of `unsigned long` (32 bits on every Arduino core). -/
def ULONG_MOD : Nat := 4294967296

/-- Unsigned subtraction `a - b` on `unsigned long`. -/
def usub (a b : Nat) : Nat := (a % ULONG_MOD + (ULONG_MOD - b % ULONG_MOD)) % ULONG_MOD

/-! ## State -/

/-- Private data members of `class Axis` (Axis.h, lines 62-74). -/
structure State where
  _name : String
  _pin : Nat
  _position_minimum_hard : Int
  _position_minimum_soft : Int
  _position_maximum_hard : Int
  _position_maximum_soft : Int
  _position_park : Int
  _position_current : Int
  _position_relative : Int
  _position_destination : Int
  _delay : Nat
  _timer : Nat
  _absolute : Bool
  deriving DecidableEq, Repr

/-- Every `int` member holds a value of the `int` type and every
`unsigned long` member a value of the `unsigned long` type. -/
def State.WF (w : Nat) (s : State) : Prop :=
  InRange w s._position_minimum_hard ∧ InRange w s._position_minimum_soft ∧
  InRange w s._position_maximum_hard ∧ InRange w s._position_maximum_soft ∧
  InRange w s._position_park ∧ InRange w s._position_current ∧
  InRange w s._position_relative ∧ InRange w s._position_destination ∧
  s._delay < ULONG_MOD ∧ s._timer < ULONG_MOD

instance (w : Nat) (s : State) : Decidable (s.WF w) := by
  unfold State.WF
  exact inferInstance

/-! ## Operations -/

/-- Constructor `Axis::Axis` (Axis.cpp, lines 32-50); `millis` is the clock
value read at construction. -/
def new (name : String) (pin : Nat)
    (position_minimal_hard position_maximum_hard : Int)
    (position_minimal_soft position_maximum_soft : Int)
    (position_park : Int) (delay : Nat) (millis : Nat) : State :=
  { _name := name
    _pin := pin
    _position_minimum_hard := position_minimal_hard
    _position_maximum_hard := position_maximum_hard
    _position_minimum_soft := position_minimal_soft
    _position_maximum_soft := position_maximum_soft
    _position_park := position_park
    _position_current := position_park
    _position_relative := 0
    _position_destination := position_park
    _delay := delay
    _timer := millis
    _absolute := true }

/-- Member `Axis::run` (Axis.cpp, lines 100-115). `t1` is the value of the
first `millis()` read (line 102) and `t2` the value of the second (line 113). -/
def runAt (w : Nat) (s : State) (t1 t2 : Nat) : Bool × State :=
  let s0 := { s with _position_relative := 0 }
  if usub t1 s0._timer < s0._delay then
    (false, s0)
  else
    let s1 :=
      if s0._position_destination > s0._position_current then
        { s0 with _position_relative := 1
                  _position_current := wrapInt w (s0._position_current + 1) }
      else s0
    let s2 :=
      if s1._position_destination < s1._position_current then
        { s1 with _position_relative := -1
                  _position_current := wrapInt w (s1._position_current - 1) }
      else s1
    (true, { s2 with _timer := t2 })

/-- One call of `run` during which the clock does not advance: both reads of
`millis()` return `now`. -/
def run (w : Nat) (s : State) (now : Nat) : Bool × State := runAt w s now now

/-- Member `Axis::positionRead` (Axis.cpp, lines 148-150). -/
def positionRead (s : State) : Int := s._position_current

/-- Member `Axis::positionReadRelative` (Axis.cpp, lines 168-170). -/
def positionReadRelative (s : State) : Int := s._position_relative

/-- Member `Axis::positionWrite` (Axis.cpp, lines 185-201). -/
def positionWrite (w : Nat) (s : State) (position : Int) : Bool × State :=
  if s._absolute then
    if position > s._position_maximum_soft ∨ position < s._position_minimum_soft then
      (true, s)
    else
      (false, { s with _position_destination := position })
  else
    if wrapInt w (position + s._position_destination) > s._position_maximum_soft ∨
        wrapInt w (position + s._position_destination) < s._position_minimum_soft then
      (true, s)
    else
      (false, { s with
        _position_destination := wrapInt w (s._position_destination + position) })

/-- Member `Axis::isDone` (Axis.cpp, lines 420-427). -/
def isDone (s : State) : Bool :=
  if s._position_current = s._position_destination then true else false

/-- State after a sequence of `run` calls at the clock values `ts`, with no
other call in between. -/
def runSeq (w : Nat) (s : State) : List Nat → State
  | [] => s
  | t :: ts => runSeq w (run w s t).2 ts

/-- The axis of the worked example: hard limits 0..1000, soft limits 10..990,
park position 500, step delay 50, constructed at clock value 0. -/
def exampleAxis : State := new "X" 2 0 1000 10 990 500 50 0

/-- The worked example in relative mode with destination 600. -/
def relativeAxis : State :=
  { exampleAxis with _position_destination := 600, _absolute := false }

/-- The worked example after the accepted request `positionWrite(600)`:
current position 500, destination 600. -/
def movingAxis : State := (positionWrite 16 exampleAxis 600).2

/-- Clock values `ts` of successive `run` calls, each at least `delay` after
the one before it, the first at least `delay` after `last`; the elapsed time
is the unsigned difference the code computes. -/
def Spaced (delay : Nat) : Nat → List Nat → Prop
  | _, [] => True
  | last, t :: ts => delay ≤ usub t last ∧ Spaced delay t ts

instance Spaced.decide (delay : Nat) :
    (last : Nat) → (ts : List Nat) → Decidable (Spaced delay last ts)
  | _, [] => isTrue trivial
  | last, t :: ts =>
    match Nat.decLe delay (usub t last), Spaced.decide delay t ts with
    | isTrue h1, isTrue h2 => isTrue ⟨h1, h2⟩
    | isFalse h1, _ => isFalse (fun h => h1 h.1)
    | _, isFalse h2 => isFalse (fun h => h2 h.2)

/-- Clock values 50, 100, ..., 50 * n. -/
def ticksEvery50 (n : Nat) : List Nat := (List.range n).map (fun i => 50 * (i + 1))

/-- How a call of a member function declared with a result type ends:
`returned value s` when a `return` statement is executed in state `s`;
`noReturn s` when control reaches the closing brace of the body in state `s`
without a `return` statement. Flowing off the end of a function declared
`bool` is undefined behaviour in C++: the language then fixes neither the
result nor the state after the call. -/
inductive Outcome (α : Type) where
  | returned (value : α) (s : State)
  | noReturn (s : State)
  deriving DecidableEq, Repr

/-- State after the call, when the language defines one. -/
def Outcome.after {α : Type} : Outcome α → Option State
  | Outcome.returned _ s => some s
  | Outcome.noReturn _ => none

/-- Member `Axis::positionReset` (Axis.cpp, lines 130-133), declared `bool`
(Axis.h, line 41): two assignments, then the end of the body with no `return`
statement. -/
def positionReset (s : State) : Outcome Bool :=
  Outcome.noReturn { s with _position_current := 0, _position_destination := 0 }

/-- Member `Axis::hardMinimumRead` (Axis.cpp, lines 216-218). -/
def hardMinimumRead (s : State) : Int := s._position_minimum_hard

/-- Member `Axis::hardMinimumWrite` (Axis.cpp, lines 233-235), declared `bool`
(Axis.h, line 46): one assignment, then the end of the body with no `return`
statement. -/
def hardMinimumWrite (s : State) (position : Int) : Outcome Bool :=
  Outcome.noReturn { s with _position_minimum_hard := position }

/-- Member `Axis::hardMaxiumRead` (Axis.cpp, lines 250-252). -/
def hardMaxiumRead (s : State) : Int := s._position_maximum_hard

/-- Member `Axis::hardMaximumWrite` (Axis.cpp, lines 267-269), declared `bool`
(Axis.h, line 48): one assignment, no `return` statement. -/
def hardMaximumWrite (s : State) (position : Int) : Outcome Bool :=
  Outcome.noReturn { s with _position_maximum_hard := position }

/-- Member `Axis::softMinimumRead` (Axis.cpp, lines 284-286). -/
def softMinimumRead (s : State) : Int := s._position_minimum_soft

/-- Member `Axis::softMinimumWrite` (Axis.cpp, lines 301-303), declared `bool`
(Axis.h, line 50): one assignment, no `return` statement. -/
def softMinimumWrite (s : State) (position : Int) : Outcome Bool :=
  Outcome.noReturn { s with _position_minimum_soft := position }

/-- Member `Axis::softMaxiumRead` (Axis.cpp, lines 318-320). -/
def softMaxiumRead (s : State) : Int := s._position_maximum_soft

/-- Member `Axis::softMaximumWrite` (Axis.cpp, lines 335-337), declared `bool`
(Axis.h, line 52): one assignment, no `return` statement. -/
def softMaximumWrite (s : State) (position : Int) : Outcome Bool :=
  Outcome.noReturn { s with _position_maximum_soft := position }

/-- Member `Axis::parkRead` (Axis.cpp, lines 352-354). -/
def parkRead (s : State) : Int := s._position_park

/-- Member `Axis::parkWrite` (Axis.cpp, lines 369-371), declared `bool`
(Axis.h, line 54): one assignment, no `return` statement. -/
def parkWrite (s : State) (position : Int) : Outcome Bool :=
  Outcome.noReturn { s with _position_park := position }

/-- Conversion of an `int` value to `unsigned long`: reduction modulo 2^32. -/
def toULong (x : Int) : Nat := (x % (ULONG_MOD : Int)).toNat

/-- Member `Axis::delayRead` (Axis.cpp, lines 386-388): the `unsigned long`
member `_delay` is returned as `int`. -/
def delayRead (w : Nat) (s : State) : Int := wrapInt w (s._delay : Int)

/-- Member `Axis::delayWrite` (Axis.cpp, lines 403-405), declared `bool`
(Axis.h, line 56): the `int` argument is stored in the `unsigned long` member
`_delay`, then the body ends with no `return` statement. -/
def delayWrite (s : State) (delay : Int) : Outcome Bool :=
  Outcome.noReturn { s with _delay := toULong delay }

/-- Member `Axis::absolute` (Axis.cpp, lines 471-473): returns the value of
the assignment `_absolute = enable`. -/
def absolute (s : State) (enable : Bool) : Bool × State :=
  (enable, { s with _absolute := enable })

/-- Member `Axis::absoluteRead` (Axis.cpp, lines 488-490). -/
def absoluteRead (s : State) : Bool := s._absolute

/-- The percent expression of `Axis::status` (Axis.cpp, line 450),
`100 - (max_hard - min_hard - current) * 100 / (max_hard - min_hard)`, in
`int` arithmetic with truncating division; `none` when the divisor is 0. -/
def statusPercent (w : Nat) (s : State) : Option Int :=
  let range := wrapInt w (s._position_maximum_hard - s._position_minimum_hard)
  let remaining := wrapInt w (range - s._position_current)
  let scaled := wrapInt w (remaining * 100)
  if range = 0 then none
  else some (wrapInt w (100 - wrapInt w (Int.tdiv scaled range)))

/-- A call from the host that neither resets the position nor changes the
soft limits. -/
inductive Op where
  | run (now : Nat)
  | positionWrite (position : Int)
  | absolute (enable : Bool)
  | hardMinimumWrite (position : Int)
  | hardMaximumWrite (position : Int)
  | parkWrite (position : Int)
  | delayWrite (delay : Int)

/-- State after one host call, when the language defines one: `none` for a
call that ends without a `return` statement. -/
def Op.apply (w : Nat) (s : State) : Op → Option State
  | Op.run now => some (Axis.run w s now).2
  | Op.positionWrite position => some (Axis.positionWrite w s position).2
  | Op.absolute enable => some (Axis.absolute s enable).2
  | Op.hardMinimumWrite position => (Axis.hardMinimumWrite s position).after
  | Op.hardMaximumWrite position => (Axis.hardMaximumWrite s position).after
  | Op.parkWrite position => (Axis.parkWrite s position).after
  | Op.delayWrite delay => (Axis.delayWrite s delay).after

/-- State after a sequence of host calls, in any interleaving; `none` as soon
as one call leaves the state undefined. -/
def applyOps (w : Nat) (s : State) : List Op → Option State
  | [] => some s
  | op :: ops =>
    match op.apply w s with
    | some s1 => applyOps w s1 ops
    | none => none

/-- An axis whose soft limits 10..990 reach beyond its hard limits 0..100. -/
def wideSoftAxis : State := new "X" 2 0 100 10 990 500 50 0

/-- The worked example with the last step taken 10 clock units before the
32-bit clock wraps. -/
def wrappedClockAxis : State := { exampleAxis with _timer := 4294967286 }

/-- An axis with soft limits -20000..20000, parked at 20000, in relative
mode. -/
def edgeAxis : State :=
  (absolute (new "X" 2 (-20000) 20000 (-20000) 20000 20000 50 0) false).2

/-- An axis with hard limits 100..200, parked at the hard minimum 100. -/
def offsetAxis : State := new "X" 2 100 200 100 200 100 50 0

/-- The axis with hard limits 100..200 at the hard maximum 200. -/
def offsetAxisAtMax : State := new "X" 2 100 200 100 200 200 50 0

/-! ## Machine arithmetic lemmas -/

theorem wrapInt_of_inRange (w : Nat) (x : Int) (h : InRange w x) : wrapInt w x = x := by
  unfold InRange INT_MIN INT_MAX at h
  unfold wrapInt INT_MIN
  have hpos : (0 : Int) < (2 : Int) ^ w := by positivity
  rw [Int.emod_eq_of_lt (by omega) (by omega)]
  omega

theorem wrapInt_inRange (w : Nat) (x : Int) (hw : 0 < w) : InRange w (wrapInt w x) := by
  obtain ⟨k, rfl⟩ : ∃ k, w = k + 1 := ⟨w - 1, by omega⟩
  unfold InRange wrapInt INT_MIN INT_MAX
  have hpos : (0 : Int) < (2 : Int) ^ k := by positivity
  have hpow : (2 : Int) ^ (k + 1) = 2 * 2 ^ k := by ring
  have h1 := Int.emod_nonneg (x - -((2 : Int) ^ (k + 1) / 2)) (by omega : (2 : Int) ^ (k + 1) ≠ 0)
  have h2 := Int.emod_lt_of_pos (x - -((2 : Int) ^ (k + 1) / 2)) (by omega : (0 : Int) < (2 : Int) ^ (k + 1))
  generalize (x - -((2 : Int) ^ (k + 1) / 2)) % (2 : Int) ^ (k + 1) = r at h1 h2
  rw [hpow] at h2 ⊢
  omega

theorem usub_of_le (a b : Nat) (hab : b ≤ a) (ha : a < ULONG_MOD) : usub a b = a - b := by
  unfold usub ULONG_MOD at *
  omega

/-! ## positionWrite -/

/-- C1. In absolute mode `positionWrite` returns true exactly when the amount
is above the soft maximum or below the soft minimum; otherwise it returns
false and the new state is the old one with the destination set to the
amount, every other member unchanged. -/
theorem positionWrite_absolute (w : Nat) (s : State) (amount : Int)
    (habs : s._absolute = true) :
    ((positionWrite w s amount).1 = true ↔
      (amount > s._position_maximum_soft ∨ amount < s._position_minimum_soft)) ∧
    ((positionWrite w s amount).1 ≠ true →
      (positionWrite w s amount).1 = false ∧
      (positionWrite w s amount).2 = { s with _position_destination := amount }) := by
  unfold positionWrite
  rw [if_pos habs]
  by_cases hout : amount > s._position_maximum_soft ∨ amount < s._position_minimum_soft
  · rw [if_pos hout]
    simp [hout]
  · rw [if_neg hout]
    simp [hout]

theorem positionWrite_absolute_witness :
    exampleAxis._absolute = true ∧
    ((positionWrite 16 exampleAxis 1200).1 = true ↔
      ((1200 : Int) > exampleAxis._position_maximum_soft ∨
        (1200 : Int) < exampleAxis._position_minimum_soft)) ∧
    ((positionWrite 16 exampleAxis 600).1 ≠ true →
      (positionWrite 16 exampleAxis 600).1 = false ∧
      (positionWrite 16 exampleAxis 600).2 =
        { exampleAxis with _position_destination := 600 }) :=
  ⟨rfl, (positionWrite_absolute 16 exampleAxis 1200 rfl).1,
    (positionWrite_absolute 16 exampleAxis 600 rfl).2⟩

/-- C2. In relative mode, when destination + amount is representable in
`int`, `positionWrite` returns true exactly when destination + amount is
above the soft maximum or below the soft minimum; otherwise it returns false
and the new state is the old one with the destination replaced by
destination + amount, every other member unchanged. -/
theorem positionWrite_relative (w : Nat) (s : State) (amount : Int)
    (hrel : s._absolute = false)
    (hrep : InRange w (s._position_destination + amount)) :
    ((positionWrite w s amount).1 = true ↔
      (s._position_destination + amount > s._position_maximum_soft ∨
        s._position_destination + amount < s._position_minimum_soft)) ∧
    ((positionWrite w s amount).1 ≠ true →
      (positionWrite w s amount).1 = false ∧
      (positionWrite w s amount).2 =
        { s with _position_destination := s._position_destination + amount }) := by
  have hw1 : wrapInt w (s._position_destination + amount) = s._position_destination + amount :=
    wrapInt_of_inRange w _ hrep
  have hw2 : wrapInt w (amount + s._position_destination) = s._position_destination + amount := by
    rw [Int.add_comm]; exact hw1
  unfold positionWrite
  rw [hrel, hw1, hw2]
  by_cases hout : s._position_destination + amount > s._position_maximum_soft ∨
      s._position_destination + amount < s._position_minimum_soft
  · simp [hout]
  · simp [hout]

theorem positionWrite_relative_witness :
    relativeAxis._absolute = false ∧
    InRange 16 (relativeAxis._position_destination + 50) ∧
    (positionWrite 16 relativeAxis 50).1 = false ∧
    (positionWrite 16 relativeAxis 50).2._position_destination = 650 :=
  ⟨rfl, by decide,
    ((positionWrite_relative 16 relativeAxis 50 rfl (by decide)).2 (by decide)).1,
    by rw [((positionWrite_relative 16 relativeAxis 50 rfl (by decide)).2 (by decide)).2]; rfl⟩

/-- C3. A rejected `positionWrite`, in either addressing mode and for every
amount, leaves the whole state, the destination included, as it was. -/
theorem positionWrite_reject_atomic (w : Nat) (s : State) (amount : Int)
    (hrej : (positionWrite w s amount).1 = true) :
    (positionWrite w s amount).2 = s ∧
    (positionWrite w s amount).2._position_destination = s._position_destination := by
  unfold positionWrite at hrej ⊢
  split at hrej <;> split at hrej <;> simp_all

theorem positionWrite_reject_atomic_witness :
    (positionWrite 16 exampleAxis 1200).1 = true ∧
    (positionWrite 16 exampleAxis 1200).2 = exampleAxis ∧
    (positionWrite 16 exampleAxis 1200).2._position_destination =
      exampleAxis._position_destination :=
  ⟨by decide, positionWrite_reject_atomic 16 exampleAxis 1200 (by decide)⟩

/-! ## run -/

theorem run_ineligible (w : Nat) (s : State) (now : Nat)
    (hlt : usub now s._timer < s._delay) :
    run w s now = (false, { s with _position_relative := 0 }) := by
  unfold run runAt
  simp only [hlt, if_true]

theorem run_eligible (w : Nat) (s : State) (now : Nat)
    (hc : InRange w s._position_current) (hd : InRange w s._position_destination)
    (hel : s._delay ≤ usub now s._timer) :
    run w s now =
      (true, { s with
        _position_relative := Int.sign (s._position_destination - s._position_current)
        _position_current :=
          s._position_current + Int.sign (s._position_destination - s._position_current)
        _timer := now }) := by
  have hnot : ¬ usub now s._timer < s._delay := by omega
  unfold run runAt
  simp only [hnot, if_false]
  rcases lt_trichotomy s._position_current s._position_destination with hlt | heq | hgt
  · have hup : InRange w (s._position_current + 1) := by
      unfold InRange at *; omega
    have hsign : Int.sign (s._position_destination - s._position_current) = 1 :=
      Int.sign_eq_one_of_pos (by omega)
    have h2 : ¬ s._position_destination < s._position_current + 1 := by omega
    simp [hlt, wrapInt_of_inRange w _ hup, hsign, h2]
  · have hsign : Int.sign (s._position_destination - s._position_current) = 0 := by
      rw [heq]; simp
    simp [heq, hsign]
  · have hdown : InRange w (s._position_current - 1) := by
      unfold InRange at *; omega
    have hsign : Int.sign (s._position_destination - s._position_current) = -1 :=
      Int.sign_eq_neg_one_of_neg (by omega)
    have h1 : ¬ s._position_destination > s._position_current := by omega
    simp [hgt, h1, wrapInt_of_inRange w _ hdown, hsign]
    rfl

theorem run_eligible_timer (w : Nat) (s : State) (now : Nat)
    (hel : s._delay ≤ usub now s._timer) :
    (run w s now).2._timer = now ∧ (run w s now).2._delay = s._delay := by
  have hnot : ¬ usub now s._timer < s._delay := by omega
  unfold run runAt
  simp only [hnot, if_false]
  split <;> split <;> simp

/-- C4. Step bound: one call of `run`, whether or not the delay has elapsed,
changes the current position by at most one unit; the two consecutive tests
of `run` never both fire, since after the increment the destination is not
below the incremented position. -/
theorem run_step_bound (w : Nat) (s : State) (now : Nat) (hwf : s.WF w) :
    |(run w s now).2._position_current - s._position_current| ≤ 1 ∧
    ¬ (s._position_destination > s._position_current ∧
        s._position_destination < wrapInt w (s._position_current + 1)) := by
  obtain ⟨-, -, -, -, -, hc, -, hd, -, -⟩ := hwf
  refine ⟨?_, fun hboth => ?_⟩
  swap
  · have hup : InRange w (s._position_current + 1) := by
      unfold InRange at *; omega
    rw [wrapInt_of_inRange w _ hup] at hboth
    omega
  by_cases hlt : usub now s._timer < s._delay
  · rw [run_ineligible w s now hlt]
    simp
  · rw [run_eligible w s now hc hd (by omega)]
    simp only [add_sub_cancel_left]
    rcases lt_trichotomy s._position_current s._position_destination with h | h | h
    · rw [Int.sign_eq_one_of_pos (by omega)]; simp
    · rw [h]; simp
    · rw [Int.sign_eq_neg_one_of_neg (by omega)]; simp

theorem run_step_bound_witness :
    movingAxis.WF 16 ∧
    |(run 16 movingAxis 50).2._position_current - movingAxis._position_current| ≤ 1 :=
  ⟨by decide, (run_step_bound 16 movingAxis 50 (by decide)).1⟩

/-- C5. Eligible tick: when the unsigned elapsed time `now - _timer` is at
least `_delay`, `run` moves the current position one unit toward the
destination, current' = current + sgn(destination - current), and
`positionReadRelative` then returns sgn(destination - current): +1 with an
increment when the destination is greater, -1 with a decrement when it is
less, 0 with no change when they are equal. The destination is unchanged. -/
theorem run_eligible_moves_toward (w : Nat) (s : State) (now : Nat) (hwf : s.WF w)
    (hel : s._delay ≤ usub now s._timer) :
    positionRead (run w s now).2 =
      s._position_current + Int.sign (s._position_destination - s._position_current) ∧
    positionReadRelative (run w s now).2 =
      Int.sign (s._position_destination - s._position_current) ∧
    (run w s now).2._position_destination = s._position_destination ∧
    (s._position_destination > s._position_current →
      positionRead (run w s now).2 = s._position_current + 1 ∧
      positionReadRelative (run w s now).2 = 1) ∧
    (s._position_destination < s._position_current →
      positionRead (run w s now).2 = s._position_current - 1 ∧
      positionReadRelative (run w s now).2 = -1) ∧
    (s._position_destination = s._position_current →
      positionRead (run w s now).2 = s._position_current ∧
      positionReadRelative (run w s now).2 = 0) := by
  obtain ⟨-, -, -, -, -, hc, -, hd, -, -⟩ := hwf
  rw [run_eligible w s now hc hd hel]
  unfold positionRead positionReadRelative
  refine ⟨rfl, rfl, rfl, ?_, ?_, ?_⟩
  · intro h
    have hs : Int.sign (s._position_destination - s._position_current) = 1 :=
      Int.sign_eq_one_of_pos (by omega)
    simp only [hs, and_self]
  · intro h
    have hs : Int.sign (s._position_destination - s._position_current) = -1 :=
      Int.sign_eq_neg_one_of_neg (by omega)
    simp only [hs, and_true]
    omega
  · intro h
    simp [h]

theorem run_eligible_moves_toward_witness :
    movingAxis.WF 16 ∧ movingAxis._delay ≤ usub 50 movingAxis._timer ∧
    positionRead (run 16 movingAxis 50).2 = 501 ∧
    positionReadRelative (run 16 movingAxis 50).2 = 1 :=
  ⟨by decide, by decide,
    (run_eligible_moves_toward 16 movingAxis 50 (by decide) (by decide)).2.2.2.1 (by decide)⟩

/-- C6. Timer reset on every eligible tick: when the unsigned elapsed time
`now - _timer` is at least `_delay`, `run` returns true and sets `_timer` to
`now`, also when the current position already equals the destination, in
which case the position does not move. -/
theorem run_eligible_resets_timer (w : Nat) (s : State) (now : Nat)
    (hel : s._delay ≤ usub now s._timer) :
    (run w s now).1 = true ∧ (run w s now).2._timer = now ∧
    (s._position_current = s._position_destination →
      (run w s now).1 = true ∧ (run w s now).2._timer = now ∧
      (run w s now).2._position_current = s._position_current) := by
  have hnot : ¬ usub now s._timer < s._delay := by omega
  unfold run runAt
  simp only [hnot, if_false, true_and]
  intro heq
  simp [heq]

theorem run_eligible_resets_timer_witness :
    exampleAxis._delay ≤ usub 75 exampleAxis._timer ∧
    exampleAxis._position_current = exampleAxis._position_destination ∧
    (run 16 exampleAxis 75).1 = true ∧ (run 16 exampleAxis 75).2._timer = 75 ∧
    (run 16 exampleAxis 75).2._position_current = exampleAxis._position_current :=
  ⟨by decide, rfl, (run_eligible_resets_timer 16 exampleAxis 75 (by decide)).2.2 rfl⟩

/-- C7. Ineligible tick: when the unsigned elapsed time `now - _timer` is
below `_delay`, `run` returns false and the new state is the old one with the
step direction set to 0, every other member unchanged; repeating the tick
gives the same result and state again. -/
theorem run_ineligible_noop (w : Nat) (s : State) (now : Nat)
    (hlt : usub now s._timer < s._delay) :
    (run w s now).1 = false ∧
    (run w s now).2 = { s with _position_relative := 0 } ∧
    run w (run w s now).2 now = run w s now := by
  have hrun := run_ineligible w s now hlt
  have hlt2 : usub now ({ s with _position_relative := 0 } : State)._timer <
      ({ s with _position_relative := 0 } : State)._delay := hlt
  refine ⟨by rw [hrun], by rw [hrun], ?_⟩
  rw [hrun]
  exact run_ineligible w _ now hlt2

theorem run_ineligible_noop_witness :
    usub 20 movingAxis._timer < movingAxis._delay ∧
    (run 16 movingAxis 20).1 = false ∧
    (run 16 movingAxis 20).2 = { movingAxis with _position_relative := 0 } ∧
    run 16 (run 16 movingAxis 20).2 20 = run 16 movingAxis 20 :=
  ⟨by decide, run_ineligible_noop 16 movingAxis 20 (by decide)⟩

/-! ## Sequences of run calls -/

theorem runSeq_up (w : Nat) (ts : List Nat) : ∀ (s : State),
    InRange w s._position_current → InRange w s._position_destination →
    Spaced s._delay s._timer ts → s._position_current ≤ s._position_destination →
    (runSeq w s ts)._position_destination = s._position_destination ∧
    ((ts.length : Int) ≤ s._position_destination - s._position_current →
      (runSeq w s ts)._position_current = s._position_current + ts.length) ∧
    (s._position_destination - s._position_current ≤ (ts.length : Int) →
      (runSeq w s ts)._position_current = s._position_destination) := by
  induction ts with
  | nil =>
    intro s _ _ _ hle
    simp only [runSeq, List.length_nil, Nat.cast_zero, add_zero, true_and]
    exact ⟨fun _ => trivial, fun h => by omega⟩
  | cons t ts ih =>
    intro s hc hd hsp hle
    obtain ⟨hel, hrest⟩ := hsp
    have hrun := run_eligible w s t hc hd hel
    simp only [runSeq, hrun, List.length_cons, Nat.cast_add, Nat.cast_one]
    rcases lt_or_eq_of_le hle with hlt | heq
    · have hs : Int.sign (s._position_destination - s._position_current) = 1 :=
        Int.sign_eq_one_of_pos (by omega)
      rw [hs]
      have hc1 : InRange w (s._position_current + 1) := by unfold InRange at *; omega
      obtain ⟨h1, h2, h3⟩ := ih
        { s with _position_relative := 1, _position_current := s._position_current + 1,
                 _timer := t } hc1 hd hrest (by show s._position_current + 1 ≤ s._position_destination; omega)
      simp only at h1 h2 h3
      refine ⟨h1, fun h => ?_, fun h => ?_⟩
      · rw [h2 (by omega)]; omega
      · rw [h3 (by omega)]
    · have hs : Int.sign (s._position_destination - s._position_current) = 0 := by
        rw [heq]; simp
      rw [hs]
      obtain ⟨h1, h2, h3⟩ := ih
        { s with _position_relative := 0, _position_current := s._position_current + 0,
                 _timer := t } (by simpa using hc) hd hrest (by show s._position_current + 0 ≤ s._position_destination; omega)
      simp only at h1 h2 h3
      refine ⟨h1, fun h => ?_, fun h => ?_⟩
      · omega
      · rw [h3 (by omega)]

theorem runSeq_down (w : Nat) (ts : List Nat) : ∀ (s : State),
    InRange w s._position_current → InRange w s._position_destination →
    Spaced s._delay s._timer ts → s._position_destination ≤ s._position_current →
    (runSeq w s ts)._position_destination = s._position_destination ∧
    ((ts.length : Int) ≤ s._position_current - s._position_destination →
      (runSeq w s ts)._position_current = s._position_current - ts.length) ∧
    (s._position_current - s._position_destination ≤ (ts.length : Int) →
      (runSeq w s ts)._position_current = s._position_destination) := by
  induction ts with
  | nil =>
    intro s _ _ _ hle
    simp only [runSeq, List.length_nil, Nat.cast_zero, sub_zero, true_and]
    exact ⟨fun _ => trivial, fun h => by omega⟩
  | cons t ts ih =>
    intro s hc hd hsp hle
    obtain ⟨hel, hrest⟩ := hsp
    have hrun := run_eligible w s t hc hd hel
    simp only [runSeq, hrun, List.length_cons, Nat.cast_add, Nat.cast_one]
    rcases lt_or_eq_of_le hle with hlt | heq
    · have hs : Int.sign (s._position_destination - s._position_current) = -1 :=
        Int.sign_eq_neg_one_of_neg (by omega)
      rw [hs]
      have hc1 : InRange w (s._position_current + -1) := by unfold InRange at *; omega
      obtain ⟨h1, h2, h3⟩ := ih
        { s with _position_relative := -1, _position_current := s._position_current + -1,
                 _timer := t } hc1 hd hrest (by show s._position_destination ≤ s._position_current + -1; omega)
      simp only at h1 h2 h3
      refine ⟨h1, fun h => ?_, fun h => ?_⟩
      · rw [h2 (by omega)]; omega
      · rw [h3 (by omega)]
    · have hs : Int.sign (s._position_destination - s._position_current) = 0 := by
        rw [heq]; simp
      rw [hs]
      obtain ⟨h1, h2, h3⟩ := ih
        { s with _position_relative := 0, _position_current := s._position_current + 0,
                 _timer := t } (by simpa using hc) hd hrest (by show s._position_destination ≤ s._position_current + 0; omega)
      simp only at h1 h2 h3
      refine ⟨h1, fun h => ?_, fun h => ?_⟩
      · omega
      · rw [h3 (by omega)]

theorem run_idle_step (w : Nat) (s : State) (now : Nat)
    (hidle : s._position_current = s._position_destination) :
    (run w s now).2._position_current = s._position_current ∧
    (run w s now).2._position_destination = s._position_destination ∧
    (run w s now).2._position_relative = 0 := by
  unfold run runAt
  by_cases hlt : usub now s._timer < s._delay
  · simp [hlt]
  · simp [hlt, hidle]

/-- C8. Convergence with exact step count: for a sequence of eligible ticks
(each at least `_delay` after the previous one and after `_timer`) and
D = |destination - current|, after k ticks with k ≤ D the current position is
current + k * sgn(destination - current), `isDone` is false for k < D, and
for every k ≥ D the current position equals the destination and `isDone` is
true. -/
theorem runSeq_converges (w : Nat) (s : State) (ts : List Nat) (hwf : s.WF w)
    (hsp : Spaced s._delay s._timer ts) :
    (ts.length ≤ (s._position_destination - s._position_current).natAbs →
      positionRead (runSeq w s ts) =
        s._position_current +
          ts.length * Int.sign (s._position_destination - s._position_current)) ∧
    (ts.length < (s._position_destination - s._position_current).natAbs →
      isDone (runSeq w s ts) = false) ∧
    ((s._position_destination - s._position_current).natAbs ≤ ts.length →
      positionRead (runSeq w s ts) = s._position_destination ∧
      isDone (runSeq w s ts) = true) := by
  obtain ⟨-, -, -, -, -, hc, -, hd, -, -⟩ := hwf
  unfold positionRead isDone
  rcases le_total s._position_current s._position_destination with hle | hge
  · obtain ⟨h1, h2, h3⟩ := runSeq_up w ts s hc hd hsp hle
    rw [h1]
    refine ⟨fun hk => ?_, fun hk => ?_, fun hk => ?_⟩
    · rw [h2 (by omega)]
      rcases lt_or_eq_of_le hle with hlt | heq
      · rw [Int.sign_eq_one_of_pos (by omega)]; omega
      · have hlen : ts.length = 0 := by omega
        simp [heq, hlen]
    · rw [h2 (by omega), if_neg (by omega)]
    · rw [h3 (by omega)]
      simp
  · obtain ⟨h1, h2, h3⟩ := runSeq_down w ts s hc hd hsp hge
    rw [h1]
    refine ⟨fun hk => ?_, fun hk => ?_, fun hk => ?_⟩
    · rw [h2 (by omega)]
      rcases lt_or_eq_of_le hge with hlt | heq
      · rw [Int.sign_eq_neg_one_of_neg (by omega)]; omega
      · have hlen : ts.length = 0 := by omega
        simp [heq, hlen]
    · rw [h2 (by omega), if_neg (by omega)]
    · rw [h3 (by omega)]
      simp

theorem runSeq_converges_witness :
    movingAxis.WF 16 ∧ Spaced movingAxis._delay movingAxis._timer (ticksEvery50 105) ∧
    movingAxis._position_current = 500 ∧ movingAxis._position_destination = 600 ∧
    positionRead (runSeq 16 movingAxis (ticksEvery50 1)) = 501 ∧
    positionRead (runSeq 16 movingAxis (ticksEvery50 2)) = 502 ∧
    positionRead (runSeq 16 movingAxis (ticksEvery50 99)) = 599 ∧
    isDone (runSeq 16 movingAxis (ticksEvery50 99)) = false ∧
    positionRead (runSeq 16 movingAxis (ticksEvery50 100)) = 600 ∧
    isDone (runSeq 16 movingAxis (ticksEvery50 100)) = true ∧
    positionRead (runSeq 16 movingAxis (ticksEvery50 105)) = 600 ∧
    isDone (runSeq 16 movingAxis (ticksEvery50 105)) = true :=
  ⟨by decide, by decide, rfl, rfl,
    (runSeq_converges 16 movingAxis (ticksEvery50 1) (by decide) (by decide)).1 (by decide),
    (runSeq_converges 16 movingAxis (ticksEvery50 2) (by decide) (by decide)).1 (by decide),
    (runSeq_converges 16 movingAxis (ticksEvery50 99) (by decide) (by decide)).1 (by decide),
    (runSeq_converges 16 movingAxis (ticksEvery50 99) (by decide) (by decide)).2.1 (by decide),
    ((runSeq_converges 16 movingAxis (ticksEvery50 100) (by decide) (by decide)).2.2
      (by decide)).1,
    ((runSeq_converges 16 movingAxis (ticksEvery50 100) (by decide) (by decide)).2.2
      (by decide)).2,
    ((runSeq_converges 16 movingAxis (ticksEvery50 105) (by decide) (by decide)).2.2
      (by decide)).1,
    ((runSeq_converges 16 movingAxis (ticksEvery50 105) (by decide) (by decide)).2.2
      (by decide)).2⟩

/-- C9, as stated, fails: on the axis with current position 500, destination
600, delay 50 and timer 0, the calls of `run` at clock values 10 and 50 are
40 apart, less than the delay, yet the second call moves the position from
500 to 501, because the first call was not eligible and left `_timer` at 0. -/
theorem run_timer_gating_counterexample :
    movingAxis.WF 16 ∧ (10 : Nat) ≤ 50 ∧ 50 - 10 < movingAxis._delay ∧
    (run 16 movingAxis 10).1 = false ∧
    (run 16 movingAxis 10).2._position_current = 500 ∧
    (run 16 (run 16 movingAxis 10).2 50).1 = true ∧
    (run 16 (run 16 movingAxis 10).2 50).2._position_current = 501 ∧
    (run 16 (run 16 movingAxis 10).2 50).2._position_current ≠
      (run 16 movingAxis 10).2._position_current := by
  decide

/-- C9, amended. Timer gating: for two consecutive calls of `run` at clock
values t1 ≤ t2 with t2 - t1 < `_delay`, when the first call returned true
(its delay had elapsed), the second call returns false and does not change
the current position. -/
theorem run_timer_gating (w : Nat) (s : State) (t1 t2 : Nat)
    (hfirst : (run w s t1).1 = true)
    (hle : t1 ≤ t2) (hclock : t2 < ULONG_MOD) (hnear : t2 - t1 < s._delay) :
    (run w (run w s t1).2 t2).1 = false ∧
    (run w (run w s t1).2 t2).2._position_current =
      (run w s t1).2._position_current := by
  have hel : ¬ usub t1 s._timer < s._delay := by
    intro hlt
    rw [run_ineligible w s t1 hlt] at hfirst
    exact Bool.noConfusion hfirst
  have htimer : (run w s t1).2._timer = t1 :=
    (run_eligible_timer w s t1 (by omega)).1
  have hdelay : (run w s t1).2._delay = s._delay :=
    (run_eligible_timer w s t1 (by omega)).2
  have hlt2 : usub t2 (run w s t1).2._timer < (run w s t1).2._delay := by
    rw [htimer, hdelay, usub_of_le t2 t1 hle hclock]
    exact hnear
  rw [run_ineligible w _ t2 hlt2]
  exact ⟨rfl, rfl⟩

theorem run_timer_gating_witness :
    (run 16 movingAxis 50).1 = true ∧ (50 : Nat) ≤ 70 ∧ 70 < ULONG_MOD ∧
    70 - 50 < movingAxis._delay ∧
    (run 16 (run 16 movingAxis 50).2 70).1 = false ∧
    (run 16 (run 16 movingAxis 50).2 70).2._position_current =
      (run 16 movingAxis 50).2._position_current :=
  ⟨by decide, by decide, by decide, by decide,
    run_timer_gating 16 movingAxis 50 70 (by decide) (by decide) (by decide) (by decide)⟩

/-- C10. Idle under no request: when current position = destination = P,
after every finite sequence of `run` calls at arbitrary clock values the
current position and the destination are still P, and after each call the
step direction read by `positionReadRelative` is 0. -/
theorem runSeq_idle (w : Nat) (s : State) (P : Int) (ts : List Nat)
    (hcur : s._position_current = P) (hdest : s._position_destination = P) :
    positionRead (runSeq w s ts) = P ∧
    (runSeq w s ts)._position_destination = P ∧
    (ts ≠ [] → positionReadRelative (runSeq w s ts) = 0) := by
  unfold positionRead positionReadRelative
  induction ts generalizing s with
  | nil => exact ⟨hcur, hdest, fun h => absurd rfl h⟩
  | cons t ts ih =>
    obtain ⟨h1, h2, h3⟩ := run_idle_step w s t (by rw [hcur, hdest])
    obtain ⟨i1, i2, i3⟩ := ih (run w s t).2 (by rw [h1, hcur]) (by rw [h2, hdest])
    refine ⟨i1, i2, fun _ => ?_⟩
    cases ts with
    | nil => exact h3
    | cons u us => exact i3 (List.cons_ne_nil u us)

theorem runSeq_idle_witness :
    exampleAxis._position_current = 500 ∧ exampleAxis._position_destination = 500 ∧
    positionRead (runSeq 16 exampleAxis [3, 60, 61, 200]) = 500 ∧
    (runSeq 16 exampleAxis [3, 60, 61, 200])._position_destination = 500 ∧
    positionReadRelative (runSeq 16 exampleAxis [3, 60, 61, 200]) = 0 :=
  ⟨rfl, rfl, (runSeq_idle 16 exampleAxis 500 [3, 60, 61, 200] rfl rfl).1,
    (runSeq_idle 16 exampleAxis 500 [3, 60, 61, 200] rfl rfl).2.1,
    (runSeq_idle 16 exampleAxis 500 [3, 60, 61, 200] rfl rfl).2.2 (by decide)⟩

/-! ## Return value of run -/

/-- C11, evaluated on the code: on the idle worked example (current position
= destination = 500, delay 50, timer 0) the call of `run` at clock value 75
returns true although the current position is still 500, where the comment
above `run` promises false when the axis does not move. -/
theorem run_true_without_movement :
    exampleAxis.WF 16 ∧
    exampleAxis._position_current = 500 ∧ exampleAxis._position_destination = 500 ∧
    (run 16 exampleAxis 75).1 = true ∧
    (run 16 exampleAxis 75).2._position_current = 500 ∧
    positionReadRelative (run 16 exampleAxis 75).2 = 0 := by
  decide

/-! ## Hard limits, reset, construction -/

/-- C12. `positionWrite` does not depend on the hard limits: replacing
`_position_minimum_hard` and `_position_maximum_hard` by any other values
gives the same returned value and the same destination, the call leaves both
hard limits as they were, and in absolute mode an amount inside the soft
limits is accepted whatever the hard limits are. -/
theorem positionWrite_ignores_hard_limits (w : Nat) (s : State) (hmin hmax amount : Int) :
    (positionWrite w { s with _position_minimum_hard := hmin,
                              _position_maximum_hard := hmax } amount).1 =
      (positionWrite w s amount).1 ∧
    (positionWrite w { s with _position_minimum_hard := hmin,
                              _position_maximum_hard := hmax } amount).2._position_destination =
      (positionWrite w s amount).2._position_destination ∧
    (positionWrite w s amount).2._position_minimum_hard = s._position_minimum_hard ∧
    (positionWrite w s amount).2._position_maximum_hard = s._position_maximum_hard ∧
    (s._absolute = true → s._position_minimum_soft ≤ amount →
      amount ≤ s._position_maximum_soft →
      (positionWrite w s amount).1 = false ∧
      (positionWrite w s amount).2._position_destination = amount) := by
  unfold positionWrite
  refine ⟨?_, ?_, ?_, ?_, ?_⟩
  · simp only
    split <;> split <;> rfl
  · simp only
    split <;> split <;> rfl
  · split <;> split <;> rfl
  · split <;> split <;> rfl
  · intro habs hlo hhi
    have hin : ¬ (amount > s._position_maximum_soft ∨ amount < s._position_minimum_soft) := by
      omega
    rw [if_pos habs, if_neg hin]
    exact ⟨rfl, rfl⟩

theorem positionWrite_ignores_hard_limits_witness :
    wideSoftAxis._absolute = true ∧
    wideSoftAxis._position_minimum_soft ≤ 600 ∧ 600 ≤ wideSoftAxis._position_maximum_soft ∧
    wideSoftAxis._position_maximum_hard < 600 ∧
    (positionWrite 16 wideSoftAxis 600).1 = false ∧
    (positionWrite 16 wideSoftAxis 600).2._position_destination = 600 :=
  ⟨rfl, by decide, by decide, by decide,
    (positionWrite_ignores_hard_limits 16 wideSoftAxis 0 100 600).2.2.2.2 rfl
      (by decide) (by decide)⟩

/-- C13, evaluated on the code: for every state, `positionReset` (declared
`bool`) assigns 0 to the current position and the destination and then
reaches the end of its body without a `return` statement; it never returns a
value, so the language defines no state after the call and nothing is
guaranteed for the timer, the mode, the park position, the limits or the
delay. -/
theorem positionReset_no_return (s : State) :
    positionReset s =
      Outcome.noReturn { s with _position_current := 0, _position_destination := 0 } ∧
    (positionReset s).after = none ∧
    (∀ (value : Bool) (s1 : State), positionReset s ≠ Outcome.returned value s1) := by
  refine ⟨rfl, rfl, ?_⟩
  intro value s1 h
  unfold positionReset at h
  exact Outcome.noConfusion h

/-- C14. Construction yields an idle axis at park: for every choice of the
constructor arguments the new axis has current position = destination =
park position, `isDone` true, step direction 0, absolute addressing mode,
timer equal to the clock value at construction, and limits, park position
and delay equal to the arguments. -/
theorem new_idle_at_park (name : String) (pin : Nat) (hmin hmax smin smax park : Int)
    (delay millis : Nat) :
    positionRead (new name pin hmin hmax smin smax park delay millis) = park ∧
    (new name pin hmin hmax smin smax park delay millis)._position_destination = park ∧
    isDone (new name pin hmin hmax smin smax park delay millis) = true ∧
    positionReadRelative (new name pin hmin hmax smin smax park delay millis) = 0 ∧
    absoluteRead (new name pin hmin hmax smin smax park delay millis) = true ∧
    (new name pin hmin hmax smin smax park delay millis)._timer = millis ∧
    hardMinimumRead (new name pin hmin hmax smin smax park delay millis) = hmin ∧
    hardMaxiumRead (new name pin hmin hmax smin smax park delay millis) = hmax ∧
    softMinimumRead (new name pin hmin hmax smin smax park delay millis) = smin ∧
    softMaxiumRead (new name pin hmin hmax smin smax park delay millis) = smax ∧
    parkRead (new name pin hmin hmax smin smax park delay millis) = park ∧
    (new name pin hmin hmax smin smax park delay millis)._delay = delay := by
  refine ⟨rfl, rfl, ?_, rfl, rfl, rfl, rfl, rfl, rfl, rfl, rfl, rfl⟩
  unfold isDone new
  simp

/-! ## Clock wrap-around -/

theorem usub_cast (a b : Nat) :
    ((usub a b : Nat) : Int) = ((a : Int) - (b : Int)) % 4294967296 := by
  unfold usub ULONG_MOD
  omega

theorem run_true_iff (w : Nat) (s : State) (now : Nat) :
    (run w s now).1 = true ↔ s._delay ≤ usub now s._timer := by
  unfold run runAt
  by_cases hlt : usub now s._timer < s._delay
  · simp only [hlt, if_true]
    constructor
    · intro h; exact Bool.noConfusion h
    · intro h; omega
  · simp only [hlt, if_false, true_iff]
    omega

/-- C15. Wrap-safe timer comparison: `run` is eligible (returns true) exactly
when (now - `_timer`) mod 2^32 is at least `_delay`; when the 32-bit clock
has wrapped since the last step, so that now is numerically below `_timer`,
the tick is eligible exactly when the true elapsed time now + 2^32 - `_timer`
is at least `_delay`. -/
theorem run_eligible_wrap_safe (w : Nat) (s : State) (now : Nat) :
    ((run w s now).1 = true ↔
      (s._delay : Int) ≤ ((now : Int) - (s._timer : Int)) % 4294967296) ∧
    (now < s._timer → s._timer < ULONG_MOD →
      ((run w s now).1 = true ↔ s._delay ≤ now + ULONG_MOD - s._timer)) := by
  have hcast := usub_cast now s._timer
  refine ⟨?_, fun hlt hT => ?_⟩
  · rw [run_true_iff, ← hcast]
    exact Int.ofNat_le.symm
  · rw [run_true_iff]
    have hval : usub now s._timer = now + ULONG_MOD - s._timer := by
      unfold usub ULONG_MOD at *
      omega
    rw [hval]

theorem run_eligible_wrap_safe_witness :
    (20 : Nat) < wrappedClockAxis._timer ∧ wrappedClockAxis._timer < ULONG_MOD ∧
    (run 16 wrappedClockAxis 20).1 = false ∧ (run 16 wrappedClockAxis 45).1 = true :=
  ⟨by decide, by decide,
    by
      have h := (run_eligible_wrap_safe 16 wrappedClockAxis 20).2 (by decide) (by decide)
      have hn : ¬ wrappedClockAxis._delay ≤ 20 + ULONG_MOD - wrappedClockAxis._timer := by
        decide
      cases hr : (run 16 wrappedClockAxis 20).1 with
      | false => rfl
      | true => exact absurd (h.mp hr) hn,
    ((run_eligible_wrap_safe 16 wrappedClockAxis 45).2 (by decide) (by decide)).mpr
      (by decide)⟩

/-! ## Configuration mutators and addressing mode -/

theorem delay_roundtrip (w : Nat) (v : Int) (hv : InRange w v) (hw : w ≤ 32) :
    wrapInt w ((toULong v : Nat) : Int) = v := by
  have hmod : ((ULONG_MOD : Nat) : Int) = (2 : Int) ^ 32 := by
    unfold ULONG_MOD; norm_num
  have hdvd : (2 : Int) ^ w ∣ (2 : Int) ^ 32 := pow_dvd_pow 2 hw
  have hnonneg : 0 ≤ v % (2 : Int) ^ 32 := Int.emod_nonneg v (by norm_num)
  unfold toULong
  rw [hmod, Int.toNat_of_nonneg hnonneg]
  have hsame : wrapInt w (v % (2 : Int) ^ 32) = wrapInt w v := by
    unfold wrapInt
    rw [Int.sub_emod, Int.emod_emod_of_dvd v hdvd, ← Int.sub_emod]
  rw [hsame]
  exact wrapInt_of_inRange w v hv

/-- C16, evaluated on the code: for every state and value v, each of
`hardMinimumWrite`, `hardMaximumWrite`, `softMinimumWrite`,
`softMaximumWrite`, `parkWrite` and `delayWrite` (all declared `bool`)
performs its single assignment and then reaches the end of its body without a
`return` statement; none of them returns a value, so the language defines no
state after the call, neither for the member written nor for the others. -/
theorem mutators_no_return (s : State) (v : Int) :
    (hardMinimumWrite s v = Outcome.noReturn { s with _position_minimum_hard := v } ∧
      (hardMinimumWrite s v).after = none) ∧
    (hardMaximumWrite s v = Outcome.noReturn { s with _position_maximum_hard := v } ∧
      (hardMaximumWrite s v).after = none) ∧
    (softMinimumWrite s v = Outcome.noReturn { s with _position_minimum_soft := v } ∧
      (softMinimumWrite s v).after = none) ∧
    (softMaximumWrite s v = Outcome.noReturn { s with _position_maximum_soft := v } ∧
      (softMaximumWrite s v).after = none) ∧
    (parkWrite s v = Outcome.noReturn { s with _position_park := v } ∧
      (parkWrite s v).after = none) ∧
    (delayWrite s v = Outcome.noReturn { s with _delay := toULong v } ∧
      (delayWrite s v).after = none) :=
  ⟨⟨rfl, rfl⟩, ⟨rfl, rfl⟩, ⟨rfl, rfl⟩, ⟨rfl, rfl⟩, ⟨rfl, rfl⟩, ⟨rfl, rfl⟩⟩

/-- C17. `absolute(enable)` returns `enable`, makes `absoluteRead` return
`enable`, and the state is the old one with only `_absolute` replaced: the
destination, the current position, the limits, the delay and the timer are
unchanged. -/
theorem absolute_sets_mode_only (s : State) (enable : Bool) :
    (absolute s enable).1 = enable ∧
    absoluteRead (absolute s enable).2 = enable ∧
    (absolute s enable).2 = { s with _absolute := enable } ∧
    (absolute s enable).2._position_destination = s._position_destination ∧
    (absolute s enable).2._position_current = s._position_current ∧
    (absolute s enable).2._delay = s._delay ∧
    (absolute s enable).2._timer = s._timer :=
  ⟨rfl, rfl, rfl, rfl, rfl, rfl, rfl⟩

/-! ## Relative requests at the edge of the int range -/

/-- C18, evaluated on the code: with 16-bit `int`, soft limits -20000..20000
and destination 20000 in relative mode, the request `positionWrite(30000)`
has the exact sum 50000, above the soft maximum, yet the machine sum wraps to
-15536, the call returns false (accepted) and the destination becomes
-15536. -/
theorem positionWrite_relative_wrap_accepted :
    edgeAxis.WF 16 ∧ InRange 16 30000 ∧ edgeAxis._absolute = false ∧
    edgeAxis._position_destination + 30000 > edgeAxis._position_maximum_soft ∧
    (positionWrite 16 edgeAxis 30000).1 = false ∧
    (positionWrite 16 edgeAxis 30000).2._position_destination = -15536 := by
  decide

/-! ## Soft envelope -/

theorem run_envelope (w : Nat) (s : State) (now : Nat)
    (hlo : InRange w s._position_minimum_soft) (hhi : InRange w s._position_maximum_soft)
    (hd1 : s._position_minimum_soft ≤ s._position_destination)
    (hd2 : s._position_destination ≤ s._position_maximum_soft)
    (hc1 : s._position_minimum_soft ≤ s._position_current)
    (hc2 : s._position_current ≤ s._position_maximum_soft) :
    (run w s now).2._position_minimum_soft = s._position_minimum_soft ∧
    (run w s now).2._position_maximum_soft = s._position_maximum_soft ∧
    (run w s now).2._position_destination = s._position_destination ∧
    s._position_minimum_soft ≤ (run w s now).2._position_current ∧
    (run w s now).2._position_current ≤ s._position_maximum_soft := by
  have hc : InRange w s._position_current := by unfold InRange at *; omega
  have hd : InRange w s._position_destination := by unfold InRange at *; omega
  by_cases hlt : usub now s._timer < s._delay
  · rw [run_ineligible w s now hlt]
    exact ⟨rfl, rfl, rfl, hc1, hc2⟩
  · rw [run_eligible w s now hc hd (by omega)]
    refine ⟨rfl, rfl, rfl, ?_, ?_⟩
    · show s._position_minimum_soft ≤
        s._position_current + Int.sign (s._position_destination - s._position_current)
      rcases lt_trichotomy s._position_current s._position_destination with h | h | h
      · rw [Int.sign_eq_one_of_pos (by omega)]; omega
      · rw [h]; simp; omega
      · rw [Int.sign_eq_neg_one_of_neg (by omega)]; omega
    · show s._position_current + Int.sign (s._position_destination - s._position_current) ≤
        s._position_maximum_soft
      rcases lt_trichotomy s._position_current s._position_destination with h | h | h
      · rw [Int.sign_eq_one_of_pos (by omega)]; omega
      · rw [h]; simp; omega
      · rw [Int.sign_eq_neg_one_of_neg (by omega)]; omega

theorem positionWrite_envelope (w : Nat) (s : State) (position : Int)
    (hd1 : s._position_minimum_soft ≤ s._position_destination)
    (hd2 : s._position_destination ≤ s._position_maximum_soft) :
    (positionWrite w s position).2._position_minimum_soft = s._position_minimum_soft ∧
    (positionWrite w s position).2._position_maximum_soft = s._position_maximum_soft ∧
    (positionWrite w s position).2._position_current = s._position_current ∧
    s._position_minimum_soft ≤ (positionWrite w s position).2._position_destination ∧
    (positionWrite w s position).2._position_destination ≤ s._position_maximum_soft := by
  unfold positionWrite
  rw [Int.add_comm position s._position_destination]
  split
  · split
    · exact ⟨rfl, rfl, rfl, hd1, hd2⟩
    · rename_i hin
      refine ⟨rfl, rfl, rfl, ?_, ?_⟩
      · show s._position_minimum_soft ≤ position
        omega
      · show position ≤ s._position_maximum_soft
        omega
  · split
    · exact ⟨rfl, rfl, rfl, hd1, hd2⟩
    · rename_i hin
      refine ⟨rfl, rfl, rfl, ?_, ?_⟩
      · show s._position_minimum_soft ≤ wrapInt w (s._position_destination + position)
        omega
      · show wrapInt w (s._position_destination + position) ≤ s._position_maximum_soft
        omega

theorem applyOps_envelope (w : Nat) (ops : List Op) : ∀ (s s2 : State),
    InRange w s._position_minimum_soft → InRange w s._position_maximum_soft →
    s._position_minimum_soft ≤ s._position_destination →
    s._position_destination ≤ s._position_maximum_soft →
    s._position_minimum_soft ≤ s._position_current →
    s._position_current ≤ s._position_maximum_soft →
    applyOps w s ops = some s2 →
    s2._position_minimum_soft = s._position_minimum_soft ∧
    s2._position_maximum_soft = s._position_maximum_soft ∧
    s._position_minimum_soft ≤ s2._position_destination ∧
    s2._position_destination ≤ s._position_maximum_soft ∧
    s._position_minimum_soft ≤ s2._position_current ∧
    s2._position_current ≤ s._position_maximum_soft := by
  induction ops with
  | nil =>
    intro s s2 _ _ hd1 hd2 hc1 hc2 hres
    have heq : s = s2 := Option.some.inj hres
    subst heq
    exact ⟨rfl, rfl, hd1, hd2, hc1, hc2⟩
  | cons op ops ih =>
    intro s s2 hlo hhi hd1 hd2 hc1 hc2 hres
    unfold applyOps at hres
    cases hop : op.apply w s with
    | none =>
      rw [hop] at hres
      exact Option.noConfusion hres
    | some s1 =>
      rw [hop] at hres
      have hstep : s1._position_minimum_soft = s._position_minimum_soft ∧
          s1._position_maximum_soft = s._position_maximum_soft ∧
          s._position_minimum_soft ≤ s1._position_destination ∧
          s1._position_destination ≤ s._position_maximum_soft ∧
          s._position_minimum_soft ≤ s1._position_current ∧
          s1._position_current ≤ s._position_maximum_soft := by
        cases op with
        | run now =>
          have hs1 : (run w s now).2 = s1 := Option.some.inj hop
          obtain ⟨h1, h2, h3, h4, h5⟩ := run_envelope w s now hlo hhi hd1 hd2 hc1 hc2
          rw [hs1] at h1 h2 h3 h4 h5
          exact ⟨h1, h2, by rw [h3]; exact hd1, by rw [h3]; exact hd2, h4, h5⟩
        | positionWrite position =>
          have hs1 : (positionWrite w s position).2 = s1 := Option.some.inj hop
          obtain ⟨h1, h2, h3, h4, h5⟩ := positionWrite_envelope w s position hd1 hd2
          rw [hs1] at h1 h2 h3 h4 h5
          exact ⟨h1, h2, h4, h5, by rw [h3]; exact hc1, by rw [h3]; exact hc2⟩
        | absolute enable =>
          have hs1 : (absolute s enable).2 = s1 := Option.some.inj hop
          subst hs1
          exact ⟨rfl, rfl, hd1, hd2, hc1, hc2⟩
        | hardMinimumWrite position => exact Option.noConfusion hop
        | hardMaximumWrite position => exact Option.noConfusion hop
        | parkWrite position => exact Option.noConfusion hop
        | delayWrite delay => exact Option.noConfusion hop
      obtain ⟨e1, e2, g1, g2, g3, g4⟩ := hstep
      obtain ⟨i1, i2, i3, i4, i5, i6⟩ := ih s1 s2 (by rw [e1]; exact hlo)
        (by rw [e2]; exact hhi) (by rw [e1]; exact g1) (by rw [e2]; exact g2)
        (by rw [e1]; exact g3) (by rw [e2]; exact g4) hres
      rw [e1] at i1 i3 i5
      rw [e2] at i2 i4 i6
      exact ⟨i1, i2, i3, i4, i5, i6⟩

/-- C19, evaluated on the code: on the worked example, constructed with
soft_min 10 ≤ park 500 ≤ soft_max 990, every sequence of calls in which
`hardMinimumWrite`, `hardMaximumWrite`, `parkWrite` or `delayWrite` occurs
reaches a call that ends without a `return` statement, after which the
language defines no state, so the soft envelope is not guaranteed; sequences
of `run`, `positionWrite` and `absolute` alone do yield a state. -/
theorem soft_envelope_lost_after_mutator :
    InRange 16 10 ∧ InRange 16 990 ∧ (10 : Int) ≤ 500 ∧ (500 : Int) ≤ 990 ∧
    applyOps 16 (new "X" 2 0 1000 10 990 500 50 0) [Op.hardMinimumWrite 2000] = none ∧
    applyOps 16 (new "X" 2 0 1000 10 990 500 50 0) [Op.hardMaximumWrite 5] = none ∧
    applyOps 16 (new "X" 2 0 1000 10 990 500 50 0) [Op.parkWrite 500] = none ∧
    applyOps 16 (new "X" 2 0 1000 10 990 500 50 0) [Op.delayWrite 50] = none ∧
    applyOps 16 (new "X" 2 0 1000 10 990 500 50 0)
      [Op.positionWrite 600, Op.run 50, Op.hardMinimumWrite 2000, Op.run 100] = none ∧
    (applyOps 16 (new "X" 2 0 1000 10 990 500 50 0)
      [Op.positionWrite 600, Op.run 50, Op.absolute false, Op.run 100]).isSome = true := by
  decide

/-! ## Percent of travel -/

/-- C20, evaluated on the code: with hard limits 100..200 the percent
expression of `status` gives 100 at the hard minimum (current = 100) and 200
at the hard maximum (current = 200), for 16-bit and for 32-bit `int`; and
with 16-bit `int` the worked example (hard limits 0..1000, current 500) gives
115, because the product 500 * 100 wraps. -/
theorem statusPercent_not_a_percentage :
    offsetAxis._position_minimum_hard < offsetAxis._position_maximum_hard ∧
    offsetAxis._position_current = offsetAxis._position_minimum_hard ∧
    statusPercent 16 offsetAxis = some 100 ∧
    statusPercent 32 offsetAxis = some 100 ∧
    offsetAxisAtMax._position_current = offsetAxisAtMax._position_maximum_hard ∧
    statusPercent 16 offsetAxisAtMax = some 200 ∧
    statusPercent 32 offsetAxisAtMax = some 200 ∧
    exampleAxis.WF 16 ∧ statusPercent 16 exampleAxis = some 115 := by
  decide

end Axis
